import Mathlib

/-!
# Verification of the personal expense tracker (`expense_tracker.py`)

Shallow embedding of the program's core: the record/collection data model,
the CSV persistence round trip (`save_expenses` / `load_expenses`), the
aggregation queries used by `view_all_expenses`, `view_by_category` and
`view_summary`, and one-step input semantics for `add_expense` and
`delete_expense`.

Modelling conventions:
* Python `float` arithmetic is modelled over `ℚ` (exact rational arithmetic);
  the amounts the program handles are short decimal strings, for which this
  is value-faithful.
* A CSV file is modelled as a sequence of line-read events
  `Except String (List Char)`: `ok line` is a successfully read line,
  `error msg` is an exception (I/O error, decode error, `csv.Error`) raised
  at that point of the iteration, mirroring the `try`/`except` in
  `load_expenses`.  A missing file is `none`.
* The `csv` module's line-level state machine (QUOTE_MINIMAL writing,
  quote-aware reading) is embedded directly; fields containing a line break
  are outside the scope of the line-based model (the round-trip theorems
  assume descriptions free of format-breaking characters, as the spec does).
* Interactive loops (`while True: re-prompt`) are modelled one prompt step
  at a time: an invalid input yields an outcome naming the re-prompt reason
  and leaves the collection unchanged.
-/

/-- One expense record.  All four fields are stored as strings, exactly as in
the Python dictionaries `{'date': …, 'category': …, 'description': …,
'amount': …}` built by `add_expense` and `csv.DictReader`. -/
structure Expense where
  date : String
  category : String
  description : String
  amount : String
deriving DecidableEq

/-- The fixed category list (`CATEGORIES` global in the source). -/
def CATEGORIES : List String :=
  ["Food", "Transport", "Entertainment", "Bills", "Shopping", "Health", "Other"]

/-! ## Decimal amounts

The program stores amounts as strings and converts with `float(...)` at every
use.  We model `float` on the decimal-literal fragment the program reads and
writes (optional sign, digits, optional fraction); other inputs (on which
Python would raise or produce non-finite values) are mapped to `0`, and no
theorem below depends on them. -/

def digitsToNat (l : List Char) : ℕ :=
  l.foldl (fun a c => 10 * a + (c.toNat - '0'.toNat)) 0

def parseUnsigned (l : List Char) : ℚ :=
  let ip := l.takeWhile (·.isDigit)
  let rest := l.dropWhile (·.isDigit)
  match rest with
  | [] => (digitsToNat ip : ℚ)
  | '.' :: fp =>
      if fp.all (·.isDigit) then
        (digitsToNat ip : ℚ) + (digitsToNat fp : ℚ) / (10 : ℚ) ^ fp.length
      else 0
  | _ => 0

/-- `float(s)` on the decimal fragment. -/
def parseFloat (s : String) : ℚ :=
  match s.data with
  | '-' :: rest => - parseUnsigned rest
  | '+' :: rest => parseUnsigned rest
  | l => parseUnsigned l

/-- `float(e['amount'])`, the numeric value of a record's amount. -/
def amountOf (e : Expense) : ℚ := parseFloat e.amount

/-- `sum(float(e['amount']) for e in expenses)` (lines 133, 202 of the source). -/
def total (es : List Expense) : ℚ := (es.map amountOf).sum

/-- `[e for e in expenses if e['category'] == c]` (lines 170, 213). -/
def filterByCategory (es : List Expense) (c : String) : List Expense :=
  es.filter (fun e => e.category == c)

/-! ## CSV writing (`csv.DictWriter`, QUOTE_MINIMAL) -/

/-- Characters that force quoting under `QUOTE_MINIMAL`: the delimiter, the
quote character, and the line-terminator characters. -/
def specialChar (c : Char) : Bool :=
  c = ',' || c = '"' || c = '\n' || c = '\r'

/-- Double every quote character inside a quoted field. -/
def escapeQuotes : List Char → List Char
  | [] => []
  | c :: rest =>
      if c = '"' then '"' :: '"' :: escapeQuotes rest
      else c :: escapeQuotes rest

/-- Serialize one field: quoted (with doubled quotes) when it contains a
special character, verbatim otherwise. -/
def encodeFieldL (f : List Char) : List Char :=
  if f.any specialChar then '"' :: (escapeQuotes f ++ ['"']) else f

/-- Serialize one row: encoded fields joined by the `,` delimiter. -/
def writeRowL (fs : List (List Char)) : List Char :=
  List.intercalate [','] (fs.map encodeFieldL)

/-! ## CSV reading (`csv.DictReader`)

The reader's per-line state machine: `fieldStart` at the beginning of a
field, `inField` inside an unquoted field (where a quote character is
literal), `inQuoted` inside a quoted field, `quoteSeen` just after a quote
character inside a quoted field (a second quote is an escaped literal
quote). -/

inductive CsvState where
  | fieldStart
  | inField
  | inQuoted
  | quoteSeen
deriving DecidableEq

def parseRow : List Char → CsvState → List Char → List (List Char)
  | [], _, cur => [cur]
  | c :: rest, .fieldStart, cur =>
      if c = '"' then parseRow rest .inQuoted cur
      else if c = ',' then cur :: parseRow rest .fieldStart []
      else parseRow rest .inField (cur ++ [c])
  | c :: rest, .inField, cur =>
      if c = ',' then cur :: parseRow rest .fieldStart []
      else parseRow rest .inField (cur ++ [c])
  | c :: rest, .inQuoted, cur =>
      if c = '"' then parseRow rest .quoteSeen cur
      else parseRow rest .inQuoted (cur ++ [c])
  | c :: rest, .quoteSeen, cur =>
      if c = '"' then parseRow rest .inQuoted (cur ++ ['"'])
      else if c = ',' then cur :: parseRow rest .fieldStart []
      else parseRow rest .inField (cur ++ [c])

/-- Split one CSV line into its fields. -/
def parseLineL (l : List Char) : List (List Char) := parseRow l .fieldStart []

/-! ## The persisted file -/

def dateKey : List Char := ['d', 'a', 't', 'e']
def categoryKey : List Char := ['c', 'a', 't', 'e', 'g', 'o', 'r', 'y']
def descriptionKey : List Char :=
  ['d', 'e', 's', 'c', 'r', 'i', 'p', 't', 'i', 'o', 'n']
def amountKey : List Char := ['a', 'm', 'o', 'u', 'n', 't']

/-- `fieldnames = ['date', 'category', 'description', 'amount']`. -/
def headerFields : List (List Char) := [dateKey, categoryKey, descriptionKey, amountKey]

/-- The header row written by `writer.writeheader()`. -/
def headerRowL : List Char := writeRowL headerFields

/-- The four field values of a record, in column order. -/
def rowFields (e : Expense) : List (List Char) :=
  [e.date.data, e.category.data, e.description.data, e.amount.data]

/-- `save_expenses`: header row followed by one row per record, in collection
order, overwriting the file (the produced file content, as a list of lines). -/
def save_expenses (es : List Expense) : List (List Char) :=
  headerRowL :: es.map (fun e => writeRowL (rowFields e))

/-- Field lookup in a `DictReader` row (`zip(fieldnames, row)` then key
lookup); a key absent from the (truncated) zip yields `none`. -/
def lookupField : List (List Char × List Char) → List Char → Option (List Char)
  | [], _ => none
  | (k, v) :: rest, key => if k = key then some v else lookupField rest key

/-- Build the record dictionary for one data row from the header names.
Rows that do not bind all four columns are not representable as `Expense`
and are dropped by the model (Python keeps a dict with `None` holes, which
any later field access turns into a runtime error). -/
def buildRecord (names vals : List (List Char)) : Option Expense :=
  match lookupField (names.zip vals) dateKey,
        lookupField (names.zip vals) categoryKey,
        lookupField (names.zip vals) descriptionKey,
        lookupField (names.zip vals) amountKey with
  | some d, some c, some ds, some a =>
      some ⟨String.mk d, String.mk c, String.mk ds, String.mk a⟩
  | _, _, _, _ => none

/-- Outcome of `load_expenses` as reported to the user. -/
inductive LoadStatus where
  | fresh
  | loaded (count : ℕ)
  | failed (msg : String)
deriving DecidableEq

/-- The `for row in reader: expenses.append(row)` loop.  `acc` is the
`expenses` list mutated in place; on an exception the rows appended so far
remain in it.  Blank lines are skipped, as `DictReader` does. -/
def loadRows (names : List (List Char)) :
    List (Except String (List Char)) → List Expense → List Expense × LoadStatus
  | [], acc => (acc, .loaded acc.length)
  | Except.error e :: _, acc => (acc, .failed e)
  | Except.ok r :: rest, acc =>
      if r.isEmpty then loadRows names rest acc
      else loadRows names rest (acc ++ (buildRecord names (parseLineL r)).toList)

/-- `load_expenses`: `none` is a missing file ("Starting fresh"); otherwise
the first event is the header line read by `DictReader`, the rest are data
rows.  An exception anywhere is caught and the accumulated list returned. -/
def load_expenses : Option (List (Except String (List Char))) → List Expense × LoadStatus
  | none => ([], .fresh)
  | some [] => ([], .loaded 0)
  | some (Except.error e :: _) => ([], .failed e)
  | some (Except.ok h :: rows) => loadRows (parseLineL h) rows []

/-! ## Add and delete (one prompt step) -/

/-- Python `str.strip()`: drop whitespace from both ends. -/
def pyStrip (s : String) : String :=
  String.mk (((s.data.dropWhile Char.isWhitespace).reverse.dropWhile
    Char.isWhitespace).reverse)

/-- `add_expense`, one validated submission: category choice in 1..7 and
amount strictly positive, else the loop re-prompts (`none`).  The stored
amount string is the submitted decimal string (Python stores
`str(float(s))`, which denotes the same value).  The description is
stripped and defaulted. -/
def add_expense (es : List Expense) (today : String) (choice : ℕ)
    (desc : String) (amountStr : String) : Option (List Expense) :=
  if h : 1 ≤ choice ∧ choice ≤ 7 ∧ 0 < parseFloat amountStr then
    some (es ++ [{ date := today
                 , category := CATEGORIES.get ⟨choice - 1, by
                     have h7 : CATEGORIES.length = 7 := rfl
                     omega⟩
                 , description := if pyStrip desc = "" then "No description" else pyStrip desc
                 , amount := amountStr }])
  else none

inductive DeleteOutcome where
  | noExpenses
  | cancelled
  | deleted (removed : Expense)
  | outOfRange
  | invalidInput
deriving DecidableEq

/-- `int(s)` on an optionally signed digit string; `none` is Python's
`ValueError`. -/
def parseIntStr (s : String) : Option Int :=
  match s.data with
  | [] => none
  | '-' :: ds =>
      if ds ≠ [] ∧ ds.all (·.isDigit) then some (-(digitsToNat ds : Int)) else none
  | '+' :: ds =>
      if ds ≠ [] ∧ ds.all (·.isDigit) then some (digitsToNat ds : Int) else none
  | ds => if ds ≠ [] ∧ ds.all (·.isDigit) then some (digitsToNat ds : Int) else none

/-- The bounds check and `expenses.pop(choice - 1)` of `delete_expense`;
an index outside `[1, len(expenses)]` prints "Invalid choice" and
re-prompts, leaving the collection unchanged. -/
def delete_core (es : List Expense) (i : Int) : List Expense × DeleteOutcome :=
  if h : 1 ≤ i ∧ i ≤ (es.length : Int) then
    (es.eraseIdx (i.toNat - 1), .deleted (es.get ⟨i.toNat - 1, by omega⟩))
  else (es, .outOfRange)

/-- Python `str.lower()` (on the ASCII fragment the prompt compares). -/
def pyLower (s : String) : String := String.mk (s.data.map Char.toLower)

/-- `delete_expense`, one prompt step: empty collection returns at once;
`'c'` (case-insensitive) cancels; a non-integer re-prompts; an integer is
range-checked and removed. -/
def delete_expense (es : List Expense) (input : String) : List Expense × DeleteOutcome :=
  if es.isEmpty then (es, .noExpenses)
  else if pyLower input == "c" then (es, .cancelled)
  else
    match parseIntStr input with
    | none => (es, .invalidInput)
    | some i => delete_core es i

/-! ## Summary (`view_summary`) -/

/-- One iteration of the breakdown loop of `view_summary`: the
`category_expenses` filter, the `if category_expenses:` guard, and the
reported `(category, count, amount, amount / total * 100)` line. -/
def breakdownEntry (es : List Expense) (c : String) : Option (String × ℕ × ℚ × ℚ) :=
  let ces := filterByCategory es c
  if ces.isEmpty then none
  else some (c, ces.length, total ces, total ces / total es * 100)

/-- The category-breakdown loop of `view_summary`: iterate `CATEGORIES` in
declared order, skip categories with no matching record, and report
`(category, count, amount, amount / total * 100)`. -/
def perCategoryBreakdown (es : List Expense) : List (String × ℕ × ℚ × ℚ) :=
  CATEGORIES.filterMap (breakdownEntry es)

structure Summary where
  totalAmount : ℚ
  count : ℕ
  average : ℚ
  breakdown : List (String × ℕ × ℚ × ℚ)
deriving DecidableEq

/-- `view_summary`: the `if not expenses` guard returns without computing
anything; otherwise total, count, average and breakdown are computed. -/
def view_summary (es : List Expense) : Option Summary :=
  if es.isEmpty then none
  else some { totalAmount := total es
            , count := es.length
            , average := total es / (es.length : ℚ)
            , breakdown := perCategoryBreakdown es }

/-- The record invariant claimed by the spec: positive amount and a category
from the fixed set. -/
def RecordInv (e : Expense) : Prop :=
  0 < parseFloat e.amount ∧ e.category ∈ CATEGORIES

instance (e : Expense) : Decidable (RecordInv e) :=
  inferInstanceAs (Decidable (_ ∧ _))

/-- Concrete records used by the witness and counterexample theorems. -/
def w1 : Expense := ⟨"2024-01-01", "Food", "lunch", "5"⟩

def w2 : Expense := ⟨"2024-01-02", "Transport", "bus", "3"⟩

def weirdPos : Expense := ⟨"2024-01-03", "Weird", "x", "5"⟩

def weirdNeg : Expense := ⟨"2024-01-04", "Weird", "x", "-5"⟩

/-! ## CSV round-trip lemmas -/

lemma not_special_of_any_false {f : List Char} (h : f.any specialChar = false) :
    ∀ c ∈ f, c ≠ ',' ∧ c ≠ '"' := by
  simp only [List.any_eq_false, specialChar] at h
  intro c hc
  have h' := h c hc
  simp at h'
  obtain ⟨⟨⟨h1, h2⟩, _⟩, _⟩ := h'
  exact ⟨h1, h2⟩

lemma parseRow_inField_append (f : List Char) (hf : ∀ c ∈ f, c ≠ ',') :
    ∀ (cur rest : List Char),
      parseRow (f ++ rest) .inField cur = parseRow rest .inField (cur ++ f) := by
  induction f with
  | nil => intro cur rest; simp
  | cons c f' ih =>
      intro cur rest
      have hc : c ≠ ',' := hf c (by simp)
      rw [List.cons_append]
      show parseRow (c :: (f' ++ rest)) .inField cur = _
      simp only [parseRow, if_neg hc, List.append_eq]
      rw [ih (fun x hx => hf x (by simp [hx])) (cur ++ [c]) rest]
      simp

lemma parseRow_quoted_append (f : List Char) :
    ∀ (cur rest : List Char),
      parseRow (escapeQuotes f ++ '"' :: rest) .inQuoted cur
        = parseRow rest .quoteSeen (cur ++ f) := by
  induction f with
  | nil => intro cur rest; simp [escapeQuotes, parseRow]
  | cons c f' ih =>
      intro cur rest
      by_cases hc : c = '"'
      · subst hc
        rw [show escapeQuotes ('"' :: f') = '"' :: '"' :: escapeQuotes f' from by
          simp [escapeQuotes]]
        simp only [List.cons_append, parseRow, if_pos rfl, List.append_eq]
        rw [ih (cur ++ ['"']) rest]
        simp
      · rw [show escapeQuotes (c :: f') = c :: escapeQuotes f' from by
          simp [escapeQuotes, hc]]
        simp only [List.cons_append, parseRow, if_neg hc, List.append_eq]
        rw [ih (cur ++ [c]) rest]
        simp

lemma writeRowL_single (f : List Char) : writeRowL [f] = encodeFieldL f := by
  simp [writeRowL, List.intercalate, List.intersperse]

lemma writeRowL_cons (f g : List Char) (gs : List (List Char)) :
    writeRowL (f :: g :: gs) = encodeFieldL f ++ ',' :: writeRowL (g :: gs) := by
  simp [writeRowL, List.intercalate, List.intersperse]

lemma parse_enc_end (f : List Char) : parseRow (encodeFieldL f) .fieldStart [] = [f] := by
  by_cases hq : f.any specialChar
  · rw [show encodeFieldL f = '"' :: (escapeQuotes f ++ ['"']) from by
      simp [encodeFieldL, hq]]
    show parseRow ('"' :: (escapeQuotes f ++ '"' :: [])) .fieldStart [] = [f]
    simp only [parseRow, if_pos rfl]
    rw [parseRow_quoted_append f [] []]
    simp [parseRow]
  · have hf := not_special_of_any_false (Bool.not_eq_true _ ▸ hq)
    rw [show encodeFieldL f = f from by simp [encodeFieldL, hq]]
    cases f with
    | nil => simp [parseLineL, parseRow]
    | cons c f' =>
        have hc := hf c (by simp)
        simp only [parseRow, if_neg hc.2, if_neg hc.1, List.nil_append]
        have := parseRow_inField_append f' (fun x hx => (hf x (by simp [hx])).1) [c] []
        simp only [List.append_nil] at this
        rw [this]
        simp [parseRow]

lemma parse_enc_mid (f rest : List Char) :
    parseRow (encodeFieldL f ++ ',' :: rest) .fieldStart []
      = f :: parseRow rest .fieldStart [] := by
  by_cases hq : f.any specialChar
  · rw [show encodeFieldL f = '"' :: (escapeQuotes f ++ ['"']) from by
      simp [encodeFieldL, hq]]
    rw [List.cons_append, List.append_assoc]
    show parseRow ('"' :: (escapeQuotes f ++ ('"' :: (',' :: rest)))) .fieldStart [] = _
    simp only [parseRow, if_pos rfl]
    rw [parseRow_quoted_append f [] (',' :: rest)]
    simp [parseRow]
  · have hf := not_special_of_any_false (Bool.not_eq_true _ ▸ hq)
    rw [show encodeFieldL f = f from by simp [encodeFieldL, hq]]
    cases f with
    | nil => simp [parseRow]
    | cons c f' =>
        have hc := hf c (by simp)
        rw [List.cons_append]
        show parseRow (c :: (f' ++ ',' :: rest)) .fieldStart [] = _
        simp only [parseRow, if_neg hc.2, if_neg hc.1, List.nil_append]
        rw [parseRow_inField_append f' (fun x hx => (hf x (by simp [hx])).1) [c] (',' :: rest)]
        simp [parseRow]

lemma parseLineL_writeRow (fs : List (List Char)) (h : fs ≠ []) :
    parseLineL (writeRowL fs) = fs := by
  induction fs with
  | nil => exact absurd rfl h
  | cons f fs' ih =>
      cases fs' with
      | nil => rw [writeRowL_single]; exact parse_enc_end f
      | cons g gs =>
          rw [writeRowL_cons]
          show parseRow _ .fieldStart [] = _
          rw [parse_enc_mid]
          rw [show parseRow (writeRowL (g :: gs)) .fieldStart [] = parseLineL (writeRowL (g :: gs)) from rfl]
          rw [ih (by simp)]

lemma buildRecord_rowFields (e : Expense) :
    buildRecord headerFields (rowFields e) = some e := rfl

lemma parseLineL_rowFields (e : Expense) :
    parseLineL (writeRowL (rowFields e)) = rowFields e :=
  parseLineL_writeRow _ (by simp [rowFields])

lemma writeRowL_rowFields_ne_nil (e : Expense) : writeRowL (rowFields e) ≠ [] := by
  rw [show rowFields e = [e.date.data, e.category.data, e.description.data, e.amount.data] from rfl]
  rw [writeRowL_cons]
  cases encodeFieldL e.date.data <;> simp

lemma loadRows_rows_append (es : List Expense) (tail : List (Except String (List Char))) :
    ∀ acc : List Expense,
      loadRows headerFields ((es.map fun e => Except.ok (writeRowL (rowFields e))) ++ tail) acc
        = loadRows headerFields tail (acc ++ es) := by
  induction es with
  | nil => intro acc; simp
  | cons e es' ih =>
      intro acc
      rw [List.map_cons, List.cons_append]
      show loadRows headerFields (Except.ok (writeRowL (rowFields e)) :: _) acc = _
      rw [show loadRows headerFields (Except.ok (writeRowL (rowFields e))
            :: ((es'.map fun e => Except.ok (writeRowL (rowFields e))) ++ tail)) acc
          = if (writeRowL (rowFields e)).isEmpty
            then loadRows headerFields ((es'.map fun e => Except.ok (writeRowL (rowFields e))) ++ tail) acc
            else loadRows headerFields ((es'.map fun e => Except.ok (writeRowL (rowFields e))) ++ tail)
                   (acc ++ (buildRecord headerFields (parseLineL (writeRowL (rowFields e)))).toList)
        from rfl]
      rw [if_neg (by simp [List.isEmpty_iff, writeRowL_rowFields_ne_nil e])]
      rw [parseLineL_rowFields, buildRecord_rowFields]
      rw [ih (acc ++ (some e).toList)]
      simp

lemma loadRows_nil_acc (acc : List Expense) :
    loadRows headerFields [] acc = (acc, .loaded acc.length) := rfl

/-- Claim C1: for every collection whose description fields contain no
format-breaking characters, `save_expenses` followed by `load_expenses`
returns the records of the original collection, field for field and in
order (and reports a successful load of that many records). -/
theorem save_load_roundtrip (es : List Expense)
    (_hdesc : ∀ e ∈ es, ∀ c ∈ e.description.data, specialChar c = false) :
    load_expenses (some ((save_expenses es).map Except.ok)) = (es, .loaded es.length) := by
  rw [show (save_expenses es).map Except.ok
      = Except.ok headerRowL :: ((es.map fun e => Except.ok (writeRowL (rowFields e)))) from by
    simp [save_expenses]]
  show loadRows (parseLineL headerRowL) _ [] = _
  rw [show parseLineL headerRowL = headerFields from by decide]
  rw [show (es.map fun e => Except.ok (writeRowL (rowFields e)))
      = (es.map fun e => Except.ok (writeRowL (rowFields e))) ++ [] from by simp]
  rw [loadRows_rows_append es [] []]
  simp [loadRows_nil_acc]

/-- Claim C3, amended: a read failure during `load_expenses` is reported as
`failed` and the function returns exactly the records read before the
failure: the full collection when the failure follows all data rows, and in
particular the empty collection when the failure occurs before any row
(e.g. at `open`). -/
theorem load_failure_partial (es : List Expense) (msg : String) :
    load_expenses (some ((save_expenses es).map Except.ok ++ [Except.error msg]))
      = (es, .failed msg) ∧
    load_expenses (some [Except.error msg]) = ([], .failed msg) := by
  constructor
  · rw [show (save_expenses es).map Except.ok ++ [Except.error msg]
        = Except.ok headerRowL
          :: ((es.map fun e => Except.ok (writeRowL (rowFields e))) ++ [Except.error msg]) from by
      simp [save_expenses]]
    show loadRows (parseLineL headerRowL) _ [] = _
    rw [show parseLineL headerRowL = headerFields from by decide]
    rw [loadRows_rows_append es [Except.error msg] []]
    rfl
  · rfl

/-- Claim C2, amended: on a collection of length `n`, deleting a 1-based
index `i` with `1 ≤ i ≤ n` removes exactly the `i`-th record, keeping all
other records in relative order, and yields length `n - 1`; deleting index
`0` or `n + 1` yields the `outOfRange` re-prompt outcome and leaves the
collection unchanged.  (The empty collection never reaches the index
check — see `delete_empty_no_outOfRange`.) -/
theorem delete_spec (es : List Expense) (i : ℕ) (h1 : 1 ≤ i) (h2 : i ≤ es.length) :
    ((delete_core es (i : ℤ)).1 = es.take (i - 1) ++ es.drop i ∧
     (delete_core es (i : ℤ)).1.length = es.length - 1 ∧
     (∃ r, (delete_core es (i : ℤ)).2 = .deleted r ∧
        es = es.take (i - 1) ++ r :: es.drop i)) ∧
    delete_core es 0 = (es, .outOfRange) ∧
    delete_core es ((es.length : ℤ) + 1) = (es, .outOfRange) := by
  have hc : 1 ≤ (i : ℤ) ∧ (i : ℤ) ≤ (es.length : ℤ) := by
    constructor <;> omega
  have hti : ((i : ℤ)).toNat = i := Int.toNat_natCast i
  have hlt : i - 1 < es.length := by omega
  refine ⟨⟨?_, ?_, ?_⟩, ?_, ?_⟩
  · rw [delete_core, dif_pos hc]
    simp only [hti]
    rw [List.eraseIdx_eq_take_drop_succ, show i - 1 + 1 = i from by omega]
  · rw [delete_core, dif_pos hc]
    simp only [hti]
    rw [List.length_eraseIdx_of_lt hlt]
  · refine ⟨es.get ⟨i - 1, hlt⟩, ?_, ?_⟩
    · rw [delete_core, dif_pos hc]
      simp only [hti]
    · conv_lhs => rw [← List.take_append_drop (i - 1) es]
      congr 1
      rw [List.drop_eq_getElem_cons hlt, show i - 1 + 1 = i from by omega]
      rfl
  · rw [delete_core, dif_neg (by omega)]
  · rw [delete_core, dif_neg (by omega)]

/-- Claim C10: entering the cancel input `'c'` (case-insensitively) at the
delete prompt returns the collection unchanged. -/
theorem delete_cancel_unchanged (es : List Expense) (input : String)
    (h : pyLower input = "c") : (delete_expense es input).1 = es := by
  by_cases he : es.isEmpty
  · simp [delete_expense, he]
  · simp [delete_expense, he, h]

/-- Claim C4: `total` is `0` on the empty collection, equals the arithmetic
sum of the records' amounts, and is independent of insertion order. -/
theorem total_spec :
    total ([] : List Expense) = 0 ∧
    (∀ es : List Expense, total es = (es.map amountOf).sum) ∧
    ∀ es₁ es₂ : List Expense, es₁.Perm es₂ → total es₁ = total es₂ := by
  refine ⟨rfl, fun _ => rfl, fun es₁ es₂ h => ?_⟩
  exact List.Perm.sum_eq (h.map amountOf)

/-- Claim C5: `filterByCategory` returns exactly the records whose category
equals the given one, in original relative order (a sublist), and its length
plus the count of non-matching records is the original length. -/
theorem filterByCategory_spec (es : List Expense) (c : String) :
    (∀ e ∈ filterByCategory es c, e.category = c) ∧
    (filterByCategory es c).Sublist es ∧
    (∀ e ∈ es, e.category = c → e ∈ filterByCategory es c) ∧
    (filterByCategory es c).length + es.countP (fun e => !(e.category == c)) = es.length := by
  refine ⟨?_, List.filter_sublist _, ?_, ?_⟩
  · intro e he
    have := List.of_mem_filter he
    simpa using this
  · intro e he hc
    exact List.mem_filter_of_mem he (by simpa using hc)
  · induction es with
    | nil => rfl
    | cons e es' ih =>
        by_cases hc : e.category = c <;>
          simp [filterByCategory, List.filter_cons, List.countP_cons, hc] at ih ⊢ <;>
          omega

/-- Claim C8: `view_summary` computes average = total / count for every
non-empty collection, and the empty collection is guarded: `view_summary`
returns `none` without computing any average, so the division is never
executed on an empty collection. -/
theorem view_summary_spec (es : List Expense) (h : es ≠ []) :
    view_summary [] = none ∧
    view_summary es = some { totalAmount := total es
                           , count := es.length
                           , average := total es / (es.length : ℚ)
                           , breakdown := perCategoryBreakdown es } := by
  refine ⟨rfl, ?_⟩
  rw [view_summary, if_neg (by simpa [List.isEmpty_iff] using h)]

lemma list_sum_map_add {α : Type} (l : List α) (f g : α → ℚ) :
    (l.map (fun a => f a + g a)).sum = (l.map f).sum + (l.map g).sum := by
  induction l with
  | nil => simp
  | cons a l ih => simp [ih]; ring

lemma sum_if_not_mem (cats : List String) (x : String) (a : ℚ) (hx : x ∉ cats) :
    (cats.map (fun c => if x = c then a else 0)).sum = 0 := by
  induction cats with
  | nil => rfl
  | cons c cats' ih =>
      have hxc : x ≠ c := by intro h; exact hx (by simp [h])
      simp only [List.map_cons, List.sum_cons, if_neg hxc]
      rw [ih (fun h => hx (by simp [h]))]
      ring

lemma sum_if_single (cats : List String) (hnd : cats.Nodup) (x : String) (hx : x ∈ cats)
    (a : ℚ) : (cats.map (fun c => if x = c then a else 0)).sum = a := by
  induction cats with
  | nil => exact absurd hx (by simp)
  | cons c cats' ih =>
      by_cases hxc : x = c
      · subst hxc
        have hnotin : x ∉ cats' := by simp at hnd; exact hnd.1
        simp [sum_if_not_mem cats' x a hnotin]
      · have hx' : x ∈ cats' := by
          rcases List.mem_cons.mp hx with h | h
          · exact absurd h hxc
          · exact h
        have hnd' : cats'.Nodup := by simp at hnd; exact hnd.2
        simp [if_neg hxc, ih hnd' hx']

lemma total_filter_cons (e : Expense) (es' : List Expense) (c : String) :
    total (filterByCategory (e :: es') c)
      = (if e.category = c then amountOf e else 0) + total (filterByCategory es' c) := by
  by_cases hc : e.category = c <;>
    simp [filterByCategory, List.filter_cons, hc, total]

lemma sum_catTotal (cats : List String) (hnd : cats.Nodup) :
    ∀ es : List Expense, (∀ e ∈ es, e.category ∈ cats) →
      (cats.map (fun c => total (filterByCategory es c))).sum = total es := by
  intro es
  induction es with
  | nil => intro _; simp [filterByCategory, total]
  | cons e es' ih =>
      intro hcat
      have hmem : e.category ∈ cats := hcat e (by simp)
      have hih := ih (fun e' he' => hcat e' (by simp [he']))
      simp only [total_filter_cons]
      rw [list_sum_map_add cats (fun c => if e.category = c then amountOf e else 0)
        (fun c => total (filterByCategory es' c))]
      rw [sum_if_single cats hnd e.category hmem (amountOf e), hih]
      simp [total]

lemma breakdownEntry_of_empty {es : List Expense} {c : String}
    (h : filterByCategory es c = []) : breakdownEntry es c = none := by
  simp [breakdownEntry, h]

lemma breakdownEntry_of_ne {es : List Expense} {c : String}
    (h : filterByCategory es c ≠ []) :
    breakdownEntry es c = some (c, (filterByCategory es c).length,
      total (filterByCategory es c),
      total (filterByCategory es c) / total es * 100) := by
  simp [breakdownEntry, h]

lemma breakdown_sum_aux (es : List Expense) (cats : List String) :
    (((cats.filterMap (breakdownEntry es)).map (fun b => b.2.2.2)).sum)
      = (cats.map (fun c => total (filterByCategory es c) / total es * 100)).sum := by
  induction cats with
  | nil => rfl
  | cons c cats' ih =>
      rw [List.filterMap_cons]
      by_cases hce : filterByCategory es c = []
      · rw [breakdownEntry_of_empty hce, List.map_cons, List.sum_cons, ih]
        rw [show total (filterByCategory es c) = 0 from by rw [hce]; rfl]
        simp
      · rw [breakdownEntry_of_ne hce, List.map_cons, List.map_cons, List.sum_cons,
          List.sum_cons, ih]

lemma breakdown_names_aux (es : List Expense) (cats : List String) :
    ((cats.filterMap (breakdownEntry es)).map (fun b => b.1))
      = cats.filter (fun c => !(filterByCategory es c).isEmpty) := by
  induction cats with
  | nil => rfl
  | cons c cats' ih =>
      rw [List.filterMap_cons, List.filter_cons]
      by_cases hce : filterByCategory es c = []
      · rw [breakdownEntry_of_empty hce]
        rw [show (!(filterByCategory es c).isEmpty) = false from by simp [hce]]
        simpa using ih
      · rw [breakdownEntry_of_ne hce]
        rw [show (!(filterByCategory es c).isEmpty) = true from by simp [hce]]
        simp only [List.map_cons, if_pos]
        rw [ih]

/-- Claim C6, amended: for every collection all of whose records carry a
category from the fixed `CATEGORIES` set and whose total is positive, the
breakdown percentages over the displayed (non-empty) categories sum to
exactly 100, and the displayed categories are precisely the non-empty ones
in declared `CATEGORIES` order. -/
theorem breakdown_spec (es : List Expense)
    (hcat : ∀ e ∈ es, e.category ∈ CATEGORIES) (ht : 0 < total es) :
    ((perCategoryBreakdown es).map (fun b => b.2.2.2)).sum = 100 ∧
    (perCategoryBreakdown es).map (fun b => b.1)
      = CATEGORIES.filter (fun c => !(filterByCategory es c).isEmpty) := by
  constructor
  · rw [perCategoryBreakdown, breakdown_sum_aux]
    have hterm : ∀ t : ℚ, t / total es * 100 = t * (100 / total es) := by
      intro t; rw [div_mul_eq_mul_div, mul_div_assoc]
    simp only [hterm]
    rw [List.sum_map_mul_right, sum_catTotal CATEGORIES (by decide) es hcat]
    have hne : total es ≠ 0 := ne_of_gt ht
    field_simp
  · rw [perCategoryBreakdown, breakdown_names_aux]

/-- Claim C9, amended: `add_expense` preserves the record invariant: every
record of a collection obtained from a successful add on an invariant
collection has a positive amount and a category from the fixed set.
(`load_expenses` does not validate — see `load_skips_validation`.) -/
theorem add_preserves_invariant (es : List Expense) (today : String) (choice : ℕ)
    (desc amountStr : String) (es' : List Expense)
    (h : ∀ e ∈ es, RecordInv e)
    (hadd : add_expense es today choice desc amountStr = some es') :
    ∀ e ∈ es', RecordInv e := by
  rw [add_expense] at hadd
  split at hadd
  · rename_i hcond
    simp only [Option.some.injEq] at hadd
    subst hadd
    intro e he
    rcases List.mem_append.mp he with hold | hnew
    · exact h e hold
    · have he' : e = _ := List.mem_singleton.mp hnew
      subst he'
      refine ⟨hcond.2.2, ?_⟩
      exact List.get_mem CATEGORIES _ _
  · exact absurd hadd (by simp)


/-- Claim C7: loading from a missing backing file returns the empty
collection with the non-error `fresh` status. -/
theorem load_missing_file : load_expenses none = ([], LoadStatus.fresh) := rfl

/-- Claim C2, counterexample: on the empty collection (n = 0) with index 0,
`delete_expense` returns the `noExpenses` outcome, not the `outOfRange`
failure the claim asserts (the collection is unchanged, as claimed). -/
theorem delete_empty_no_outOfRange :
    delete_expense [] "0" = ([], DeleteOutcome.noExpenses) ∧
    DeleteOutcome.noExpenses ≠ DeleteOutcome.outOfRange := by decide

/-- Claim C3, counterexample: a failure raised after one data row was read
leaves that row in the returned collection — the collection is not
discarded to empty as the claim states. -/
theorem load_partial_kept :
    load_expenses (some [Except.ok headerRowL, Except.ok (writeRowL (rowFields w1)),
        Except.error "boom"]) = ([w1], .failed "boom") ∧
    ([w1] : List Expense) ≠ [] := by decide

/-- Claim C6, counterexample: a collection holding one record whose
category is outside the fixed set has positive total, yet the displayed
breakdown percentages sum to 0, not 100. -/
theorem breakdown_sum_missing_category :
    0 < total [weirdPos] ∧
    ((perCategoryBreakdown [weirdPos]).map (fun b => b.2.2.2)).sum ≠ 100 := by
  constructor
  · rw [show total [weirdPos] = 5 from by simp [total, amountOf, weirdPos]; rfl]
    norm_num
  · rw [show ((perCategoryBreakdown [weirdPos]).map (fun b => b.2.2.2)).sum = 0 from rfl]
    norm_num

/-- Claim C9, counterexample: `load_expenses` performs no validation, so a
stored row with a negative amount and an unknown category enters the
collection as a record violating the invariant. -/
theorem load_skips_validation :
    (load_expenses (some [Except.ok headerRowL,
        Except.ok (writeRowL (rowFields weirdNeg))])).1 = [weirdNeg] ∧
    ¬ RecordInv weirdNeg := by decide

/-- Witness for `save_load_roundtrip` at a concrete two-record collection. -/
theorem save_load_roundtrip_witness :
    (∀ e ∈ [w1, w2], ∀ c ∈ e.description.data, specialChar c = false) ∧
    load_expenses (some ((save_expenses [w1, w2]).map Except.ok)) = ([w1, w2], .loaded 2) :=
  ⟨by decide, save_load_roundtrip [w1, w2] (by decide)⟩

/-- Witness for `delete_spec` at a concrete two-record collection, index 1. -/
theorem delete_spec_witness :
    1 ≤ 1 ∧ (1 : ℕ) ≤ ([w1, w2] : List Expense).length ∧
    (((delete_core [w1, w2] ((1 : ℕ) : ℤ)).1 = [w1, w2].take 0 ++ [w1, w2].drop 1 ∧
      (delete_core [w1, w2] ((1 : ℕ) : ℤ)).1.length = ([w1, w2] : List Expense).length - 1 ∧
      (∃ r, (delete_core [w1, w2] ((1 : ℕ) : ℤ)).2 = .deleted r ∧
        ([w1, w2] : List Expense) = [w1, w2].take 0 ++ r :: [w1, w2].drop 1)) ∧
     delete_core [w1, w2] 0 = ([w1, w2], .outOfRange) ∧
     delete_core [w1, w2] ((([w1, w2] : List Expense).length : ℤ) + 1) = ([w1, w2], .outOfRange)) :=
  ⟨by decide, by decide, delete_spec [w1, w2] 1 (by decide) (by decide)⟩

/-- Witness for `total_spec` on a concrete two-record permutation. -/
theorem total_spec_witness :
    ([w1, w2] : List Expense).Perm [w2, w1] ∧ total [w1, w2] = total [w2, w1] :=
  ⟨List.Perm.swap w2 w1 [], total_spec.2.2 [w1, w2] [w2, w1] (List.Perm.swap w2 w1 [])⟩

/-- Witness for `filterByCategory_spec` at a concrete collection. -/
theorem filterByCategory_spec_witness :
    w1 ∈ filterByCategory [w1, w2] "Food" ∧ w1.category = "Food" :=
  ⟨by decide, (filterByCategory_spec [w1, w2] "Food").1 w1 (by decide)⟩

/-- Witness for `breakdown_spec` at a concrete one-record collection. -/
theorem breakdown_spec_witness :
    (∀ e ∈ [w1], e.category ∈ CATEGORIES) ∧ 0 < total [w1] ∧
    (((perCategoryBreakdown [w1]).map (fun b => b.2.2.2)).sum = 100 ∧
     (perCategoryBreakdown [w1]).map (fun b => b.1)
       = CATEGORIES.filter (fun c => !(filterByCategory [w1] c).isEmpty)) := by
  have ht : 0 < total [w1] := by
    rw [show total [w1] = 5 from by simp [total, amountOf, w1]; rfl]
    norm_num
  exact ⟨by decide, ht, breakdown_spec [w1] (by decide) ht⟩

/-- Witness for `view_summary_spec` at a concrete one-record collection. -/
theorem view_summary_spec_witness :
    ([w1] : List Expense) ≠ [] ∧
    (view_summary [] = none ∧
     view_summary [w1] = some { totalAmount := total [w1]
                                , count := 1
                                , average := total [w1] / ((1 : ℕ) : ℚ)
                                , breakdown := perCategoryBreakdown [w1] }) :=
  ⟨by decide, view_summary_spec [w1] (by decide)⟩

/-- Witness for `add_preserves_invariant` on a concrete valid submission. -/
theorem add_preserves_invariant_witness :
    (∀ e ∈ ([] : List Expense), RecordInv e) ∧
    add_expense [] "2024-01-01" 1 "  lunch " "5" = some [w1] ∧
    ∀ e ∈ [w1], RecordInv e := by
  refine ⟨by decide, by decide, ?_⟩
  exact add_preserves_invariant [] "2024-01-01" 1 "  lunch " "5" [w1] (by decide) (by decide)

/-- Witness for `delete_cancel_unchanged` with the uppercase cancel input. -/
theorem delete_cancel_witness :
    pyLower "C" = "c" ∧ (delete_expense [w1, w2] "C").1 = [w1, w2] :=
  ⟨by decide, delete_cancel_unchanged [w1, w2] "C" (by decide)⟩
